import Mathlib

/-!
Verification of the score-calculation core (`calculate`) of the
Teacher-score web application (`src/teacher-score-web/src/App.tsx`).

The embedding below follows the source line by line:

* `ROLE_INFO`, `WEIGHTS`, `CLASS_VICE_COMBO_CAP` mirror the constants
  (App.tsx lines 8-19); role identifiers are named by the `code` field
  of each `ROLE_INFO` entry (CLASS, VICE, ...), the Chinese display
  names are kept as strings via `roleName`.
* JavaScript floating-point numbers are modelled as exact rationals `ℚ`.
  Arithmetic is performed by the executable operations `qadd`, `qsub`,
  `qmul`, `qdiv`, `qmin`, `qle`, `qlt` defined below directly on
  numerators and denominators (so that concrete runs of the program can
  be evaluated by `decide`); the theorems `qadd_eq`, `qsub_eq`, ... in
  the proof section show each of them equal to the corresponding
  standard operation on `ℚ`.  Rational constants are written `mkRat n d`
  (the value n/d).
* `matchLine` implements the leftmost match of the line regex
  (App.tsx line 44) on the characters of a line; `parseLines` mirrors
  the `lines.map` body (lines 43-50) including the order of the three
  failure checks.
* `monthsList`, `walk`, `monthStep`, `allocStep` mirror the month loop
  (lines 52-107); `calculate` assembles the final result (lines 109-111).
-/

set_option maxRecDepth 4000

/-- Decidable equality for `Except`, used to evaluate `calculate` at
concrete inputs. -/
instance {ε α : Type} [DecidableEq ε] [DecidableEq α] : DecidableEq (Except ε α) := fun x y =>
  match x, y with
  | .ok a, .ok b =>
    if h : a = b then .isTrue (by rw [h]) else .isFalse (by intro hh; cases hh; exact h rfl)
  | .error a, .error b =>
    if h : a = b then .isTrue (by rw [h]) else .isFalse (by intro hh; cases hh; exact h rfl)
  | .ok _, .error _ => .isFalse (by intro hh; cases hh)
  | .error _, .ok _ => .isFalse (by intro hh; cases hh)

namespace TS

/-- Executable addition on `ℚ` (the library's `Rat.add` is marked
irreducible, which blocks kernel evaluation of concrete program runs;
see `qadd_eq`). -/
def qadd (a b : ℚ) : ℚ :=
  mkRat (a.num * b.den + b.num * a.den) (a.den * b.den)

/-- Executable subtraction on `ℚ` (see `qsub_eq`). -/
def qsub (a b : ℚ) : ℚ :=
  mkRat (a.num * b.den - b.num * a.den) (a.den * b.den)

/-- Executable multiplication on `ℚ` (see `qmul_eq`). -/
def qmul (a b : ℚ) : ℚ :=
  mkRat (a.num * b.num) (a.den * b.den)

/-- Executable division on `ℚ` (see `qdiv_eq`). -/
def qdiv (a b : ℚ) : ℚ :=
  mkRat (a.num * (if b.num < 0 then -(b.den : Int) else (b.den : Int)))
    (a.den * b.num.natAbs)

/-- Executable order on `ℚ`: `qle a b` iff `a ≤ b` (see `qle_iff`). -/
def qle (a b : ℚ) : Prop :=
  a.num * (b.den : Int) ≤ b.num * (a.den : Int)

instance (a b : ℚ) : Decidable (qle a b) :=
  inferInstanceAs (Decidable (_ ≤ _))

/-- Executable strict order on `ℚ`: `qlt a b` iff `a < b` (see `qlt_iff`). -/
def qlt (a b : ℚ) : Prop :=
  a.num * (b.den : Int) < b.num * (a.den : Int)

instance (a b : ℚ) : Decidable (qlt a b) :=
  inferInstanceAs (Decidable (_ < _))

/-- Executable `Math.min` on `ℚ` (see `qmin_eq`). -/
def qmin (a b : ℚ) : ℚ :=
  if qle a b then a else b

/-- The seven role identifiers of the static role table (App.tsx lines 8-16),
named by the `code` field of each entry. -/
inductive RoleKey where
  | CLASS
  | VICE
  | GRADE
  | SUBJECT
  | PREP
  | MID
  | DEPT
deriving DecidableEq, Repr

/-- Static data attached to a role in `ROLE_INFO`: lifetime cap and the
one or two annual baseline rates (the `color` fields are presentation-only
and omitted). -/
structure RoleInfo where
  caps : ℚ
  baselines : List ℚ
deriving DecidableEq, Repr

/-- The static role table `ROLE_INFO` (App.tsx lines 8-16); `mkRat n d`
is the rational n/d, so the baselines are the source's 1.5, 0.5, 0.75,
1.2 values. -/
def ROLE_INFO : RoleKey → RoleInfo
  | .CLASS => ⟨15, [1, mkRat 3 2]⟩
  | .VICE => ⟨15, [mkRat 1 2, mkRat 3 4]⟩
  | .GRADE => ⟨15, [1, mkRat 3 2]⟩
  | .SUBJECT => ⟨15, [1, mkRat 3 2]⟩
  | .PREP => ⟨8, [mkRat 1 2]⟩
  | .MID => ⟨20, [mkRat 6 5, mkRat 3 2]⟩
  | .DEPT => ⟨15, [1, mkRat 3 2]⟩

/-- The Chinese display name of a role: the key of its `ROLE_INFO` entry. -/
def roleName : RoleKey → String
  | .CLASS => "班主任"
  | .VICE => "副班主任"
  | .GRADE => "年级组长"
  | .SUBJECT => "科组长"
  | .PREP => "备课组长"
  | .MID => "中层干部"
  | .DEPT => "学科主任"

/-- The role keys in the insertion order of the `ROLE_INFO` object literal;
`Object.keys(ROLE_INFO)` returns exactly this order. -/
def ROLES : List RoleKey :=
  [.CLASS, .VICE, .GRADE, .SUBJECT, .PREP, .MID, .DEPT]

/-- String-keyed lookup `ROLE_INFO[role]` used by the parser's
`if (!ROLE_INFO[role])` check (App.tsx line 47).  (The JavaScript lookup
would also find inherited `Object.prototype` members for exotic role
strings such as "toString"; such inputs crash the source later with a
`TypeError` and are idealised here as unknown-role failures.) -/
def roleOfName (s : String) : Option RoleKey :=
  ROLES.find? (fun r => roleName r == s)

/-- The fixed decaying weight schedule `WEIGHTS = [1, 0.5, 0.25, 0.125,
0.0625]` (App.tsx line 18). -/
def WEIGHTS : List ℚ :=
  [1, mkRat 1 2, mkRat 1 4, mkRat 1 8, mkRat 1 16]

/-- The combined cap shared by 班主任 (CLASS) and 副班主任 (VICE)
(App.tsx line 19). -/
def CLASS_VICE_COMBO_CAP : ℚ := 15

/-- Numeric value of a decimal digit character. -/
def dv (c : Char) : Int :=
  (c.toNat : Int) - ('0'.toNat : Int)

/-- The function `ymToIndex` (App.tsx lines 23-26) applied to a captured
date string: the regex guarantees the shape `\d{4}-\d{2}-\d{2}`, so the
year is the first four characters and the month the sixth and seventh;
the result is `year*12 + (month-1)`.  (The catch-all defaults to 0; it is
never reached on strings produced by `matchLine`.) -/
def ymToIndex (date : List Char) : Int :=
  match date with
  | y1 :: y2 :: y3 :: y4 :: _ :: m1 :: m2 :: _ =>
    (1000 * dv y1 + 100 * dv y2 + 10 * dv y3 + dv y4) * 12 + (10 * dv m1 + dv m2 - 1)
  | _ => 0

/-- `String(m).padStart(2, "0")` for the month component (two digits). -/
def pad2 (n : Int) : String :=
  let s := toString n
  if s.length < 2 then "0" ++ s else s

/-- The function `indexToYM` (App.tsx lines 28-32): `Math.floor` division
is `Int.fdiv` and the JavaScript remainder operator is `Int.tmod`. -/
def indexToYM (index : Int) : String :=
  toString (Int.fdiv index 12) ++ "-" ++ pad2 (Int.tmod index 12 + 1)

/-- Splitting a text into lines at newline characters.  The source splits
on the regex `/\r?\n/`; a `\r` directly before a `\n` survives the split
here but is removed by the subsequent `trim`, so the trimmed lines agree. -/
def splitNL : List Char → List Char → List (List Char)
  | [], acc => [acc.reverse]
  | '\n' :: rest, acc => acc.reverse :: splitNL rest []
  | c :: rest, acc => splitNL rest (c :: acc)

/-- `String.prototype.trim` on a list of characters. -/
def trimChars (cs : List Char) : List Char :=
  ((cs.dropWhile Char.isWhitespace).reverse.dropWhile Char.isWhitespace).reverse

/-- The trimmed, non-blank lines of the input text
(`csvText.split(/\r?\n/).map(l => l.trim()).filter(Boolean)`,
App.tsx line 42). -/
def linesOf (csvText : String) : List (List Char) :=
  ((splitNL csvText.data []).map trimChars).filter (fun l => !l.isEmpty)

/-- Matching the fixed-width date group `\d{4}-\d{2}-\d{2}`: on success,
returns the ten matched characters and the remainder. -/
def takeDate (cs : List Char) : Option (List Char × List Char) :=
  match cs with
  | y1 :: y2 :: y3 :: y4 :: '-' :: m1 :: m2 :: '-' :: d1 :: d2 :: rest =>
    if y1.isDigit && y2.isDigit && y3.isDigit && y4.isDigit
        && m1.isDigit && m2.isDigit && d1.isDigit && d2.isDigit then
      some (y1 :: y2 :: y3 :: y4 :: '-' :: m1 :: m2 :: '-' :: d1 :: d2 :: [], rest)
    else none
  | _ => none

/-- Matching `\s*\"?(\d{4}-\d{2}-\d{2})\"?` followed by the rest of the
regex after the first comma is consumed.  The greedy `\s*` and `\"?` need
no backtracking here: whitespace is not a digit or quote, and a quote is
not a digit, so if the greedy choice fails every shorter choice fails. -/
def matchDates (cs : List Char) : Option (List Char × List Char) :=
  let cs1 := cs.dropWhile Char.isWhitespace
  let cs2 := match cs1 with
    | '"' :: rest => rest
    | _ => cs1
  match takeDate cs2 with
  | none => none
  | some (d1, r1) =>
    let r2o : Option (List Char) := match r1 with
      | '"' :: ',' :: r2 => some r2
      | ',' :: r2 => some r2
      | _ => none
    match r2o with
    | none => none
    | some r2 =>
      let r3 := r2.dropWhile Char.isWhitespace
      let r4 := match r3 with
        | '"' :: rest => rest
        | _ => r3
      match takeDate r4 with
      | none => none
      | some (d2, _) => some (d1, d2)

/-- Matching `\"?,` followed by the two date fields at the current
position: this is the check performed after the lazy role group has
consumed `cs`'s complement.  (If the optional quote is taken the next
character must be the comma; otherwise the comma must be immediate.) -/
def afterRole (cs : List Char) : Option (List Char × List Char) :=
  match cs with
  | '"' :: ',' :: rest => matchDates rest
  | ',' :: rest => matchDates rest
  | _ => none

/-- The lazy role group `(.*?)`: grow the captured role one character at
a time until the remainder of the pattern matches. -/
def findRole : List Char → List Char → Option (List Char × List Char × List Char)
  | pending, acc =>
    match afterRole pending with
    | some (d1, d2) => some (acc.reverse, d1, d2)
    | none =>
      match pending with
      | [] => none
      | c :: rest => findRole rest (c :: acc)

/-- The leftmost match of the line regex
`/\"?(.*?)\"?,\s*\"?(\d{4}-\d{2}-\d{2})\"?,\s*\"?(\d{4}-\d{2}-\d{2})\"?/`
(App.tsx line 44), returning the three captured groups (role, start date,
end date).  The regex is unanchored, but since `(.*?)` can absorb any
character a match anywhere implies a match starting at position 0, and the
lazy group makes the first success of `findRole` the captured one.  A
leading quote consumed by the initial `\"?` never has to be given back:
if the pattern fails with it consumed it also fails without. -/
def matchLine (line : List Char) : Option (List Char × List Char × List Char) :=
  match line with
  | '"' :: rest => findRole rest []
  | cs => findRole cs []

/-- Lexicographic comparison of JavaScript strings (`end < start`,
App.tsx line 48), character by character by code unit, a proper prefix
sorting first. -/
def lexLt : List Char → List Char → Bool
  | [], [] => false
  | [], _ :: _ => true
  | _ :: _, [] => false
  | a :: as1, b :: bs1 =>
    if a < b then true else if b < a then false else lexLt as1 bs1

/-- The errors thrown by `calculate` (App.tsx lines 45, 47, 48):
CSV-format error with the 1-based line number and offending line,
unknown role name, and end date before start date. -/
inductive Err where
  | parseError (lineNo : Nat) (line : List Char)
  | unknownRole (role : List Char)
  | invalidRange (role : List Char)
deriving DecidableEq, Repr

/-- A parsed tenure record (`RoleEntry`, App.tsx line 34); `stop` is the
source's `end` field (a reserved word in Lean). -/
structure RoleEntry where
  role : RoleKey
  start : List Char
  stop : List Char
deriving DecidableEq, Repr

/-- The body of `lines.map((line, idx) => ...)` (App.tsx lines 43-50):
regex match, role lookup, date-order check, in this order, aborting at
the first failing line. -/
def parseLines : Nat → List (List Char) → Except Err (List RoleEntry)
  | _, [] => .ok []
  | idx, l :: ls =>
    match matchLine l with
    | none => .error (.parseError (idx + 1) l)
    | some (role, s, e) =>
      match roleOfName (String.mk role) with
      | none => .error (.unknownRole role)
      | some rk =>
        if lexLt e s then .error (.invalidRange role)
        else
          match parseLines (idx + 1) ls with
          | .error er => .error er
          | .ok rest => .ok (⟨rk, s, e⟩ :: rest)

/-- Parsing the whole input text into tenure records. -/
def entriesOf (csvText : String) : Except Err (List RoleEntry) :=
  parseLines 0 (linesOf csvText)

/-- Mutable per-role running state (`RoleState`, App.tsx line 35). -/
structure RoleState where
  score : ℚ
  monthsServed : Nat
  capped : Bool
deriving DecidableEq, Repr

/-- The running state of all roles (`roleState`, App.tsx line 56). -/
def States : Type := RoleKey → RoleState

/-- Fresh state: every role starts with score 0, zero months, uncapped. -/
def initState : States := fun _ => ⟨0, 0, false⟩

/-- Point update of the running state of one role. -/
def setState (st : States) (r : RoleKey) (v : RoleState) : States :=
  fun x => if x = r then v else st x

/-- One month's allocation record (`MonthAllocation`, App.tsx line 36). -/
structure MonthAllocation where
  role : RoleKey
  weight : ℚ
  gain : ℚ
deriving DecidableEq, Repr

/-- One processed month (`MonthDetail`, App.tsx line 37). -/
structure MonthDetail where
  ym : String
  allocations : List MonthAllocation
deriving DecidableEq, Repr

/-- A role's final summary (`RoleSummary`, App.tsx line 38). -/
structure RoleSummary where
  role : RoleKey
  score : ℚ
  cap : ℚ
  capped : Bool
deriving DecidableEq, Repr

/-- The result of `calculate` (`CalculationResult`, App.tsx line 39). -/
structure CalculationResult where
  roleSummary : List RoleSummary
  totalScore : ℚ
  monthDetails : List MonthDetail
deriving DecidableEq, Repr

/-- `⌊y + 1/2⌋` computed on the numerator and denominator (`/` on `ℤ` is
Euclidean division, which agrees with floor division here because the
divisor is positive); see `qhalfUp_eq`. -/
def qhalfUp (y : ℚ) : Int :=
  (2 * y.num + (y.den : Int)) / (2 * (y.den : Int))

/-- `+x.toFixed(4)`: rounding to four decimal places, ties rounding up
(the ECMAScript `toFixed` picks the larger candidate on a tie); see
`round4_eq`. -/
def round4 (x : ℚ) : ℚ :=
  mkRat (qhalfUp (qmul x (mkRat 10000 1))) 10000

/-- The roles active in month `ymIdx` (App.tsx line 62): every tenure
record covering the month contributes its role (records of the same role
are NOT deduplicated), then roles whose `capped` flag is set are dropped. -/
def activeRoles (entries : List RoleEntry) (st : States) (ymIdx : Int) : List RoleKey :=
  ((entries.filter (fun e =>
      decide (ymToIndex e.start ≤ ymIdx) && decide (ymIdx ≤ ymToIndex e.stop))).map
    (fun e => e.role)).filter (fun r => !(st r).capped)

/-- `activeRoles.forEach(r => { roleState[r].monthsServed += 1; })`
(App.tsx line 65): one increment per occurrence in the list. -/
def bumpServed (st : States) (rs : List RoleKey) : States :=
  rs.foldl (fun s r => setState s r ⟨(s r).score, (s r).monthsServed + 1, (s r).capped⟩) st

/-- A ranked candidate (App.tsx lines 67-72). -/
structure Candidate where
  role : RoleKey
  baselinePerMonth : ℚ
  remainingCap : ℚ
deriving DecidableEq, Repr

/-- Building one candidate (App.tsx lines 67-72): the baseline tier is
`baselines[monthsSrv >= 72 && baselines.length > 1 ? 1 : 0]` where
`monthsSrv` is the months-served counter AFTER this month's increments,
minus one; the annual rate is divided by 12, and the remaining cap
headroom `caps - score` carries a `1e-9` epsilon. -/
def mkCandidate (st : States) (role : RoleKey) : Candidate :=
  let info := ROLE_INFO role
  let monthsSrv : Nat := (st role).monthsServed - 1
  let baseline := info.baselines.getD (if 72 ≤ monthsSrv ∧ 1 < info.baselines.length then 1 else 0) 0
  ⟨role, qdiv baseline 12, qadd (qsub info.caps (st role).score) (mkRat 1 1000000000)⟩

/-- The comparator `(a,b) => b.baselinePerMonth - a.baselinePerMonth ||
b.remainingCap - a.remainingCap` (App.tsx line 74) returns a negative
number exactly when `a` must precede `b`: strictly larger baseline, or
equal baseline and strictly larger remaining headroom. -/
def candBefore (a b : Candidate) : Bool :=
  decide (qlt b.baselinePerMonth a.baselinePerMonth)
    || (decide (a.baselinePerMonth = b.baselinePerMonth)
        && decide (qlt b.remainingCap a.remainingCap))

/-- Stable insertion of a candidate: it is placed after every already
placed candidate that it does not strictly precede. -/
def insertCand (x : Candidate) : List Candidate → List Candidate
  | [] => [x]
  | y :: ys => if candBefore x y then x :: y :: ys else y :: insertCand x ys

/-- Stable sort by the comparator of App.tsx line 74.  `Array.prototype.sort`
is stable and the comparator is a total preorder on the (baseline,
headroom) key, so its output is uniquely determined: sorted by key with
ties in original order, which is what left-to-right stable insertion
produces. -/
def sortCands (l : List Candidate) : List Candidate :=
  l.foldl (fun acc x => insertCand x acc) []

/-- The sorted candidate list of one month (App.tsx lines 67-74), built
from the state in which this month's months-served increments have
already happened. -/
def monthCandidates (entries : List RoleEntry) (st : States) (ymIdx : Int) : List Candidate :=
  let act := activeRoles entries st ymIdx
  sortCands (act.map (mkCandidate (bumpServed st act)))

/-- The combined-cap clamp (App.tsx lines 82-87): for the two linked
roles, a non-positive combined headroom forces the gain to 0, otherwise
the gain is capped at the combined headroom; other roles are unaffected. -/
def comboClamp (st : States) (r : RoleKey) (gain : ℚ) : ℚ :=
  if r = RoleKey.CLASS ∨ r = RoleKey.VICE then
    let comboUsed := qadd (st RoleKey.CLASS).score (st RoleKey.VICE).score
    let remainingCombo := qsub CLASS_VICE_COMBO_CAP comboUsed
    if qle remainingCombo 0 then 0 else qmin gain remainingCombo
  else gain

/-- The per-role cap clamp (App.tsx line 89):
`Math.min(gain, ROLE_INFO[role].caps - roleState[role].score)`. -/
def capClamp (r : RoleKey) (score gain : ℚ) : ℚ :=
  qmin gain (qsub (ROLE_INFO r).caps score)

/-- Crediting the allowable gain to the role's running score
(`roleState[role].score += allowable`, App.tsx line 90). -/
def creditGain (st : States) (r : RoleKey) (allowable : ℚ) : States :=
  setState st r ⟨qadd (st r).score allowable, (st r).monthsServed, (st r).capped⟩

/-- The combined capped-flag update (App.tsx lines 92-98): if the role is
one of the two linked roles and their combined score has reached
`15 - 1e-6`, both linked roles' capped flags are set.  (The source sets
班主任's flag first and then 副班主任's; the two keys are distinct, so
reading 副班主任's state before or after the first write is the same.) -/
def comboCapFlag (st : States) (r : RoleKey) : States :=
  if r = RoleKey.CLASS ∨ r = RoleKey.VICE then
    if qle (qsub CLASS_VICE_COMBO_CAP (mkRat 1 1000000))
        (qadd (st RoleKey.CLASS).score (st RoleKey.VICE).score) then
      setState
        (setState st RoleKey.CLASS
          ⟨(st RoleKey.CLASS).score, (st RoleKey.CLASS).monthsServed, true⟩)
        RoleKey.VICE
        ⟨(st RoleKey.VICE).score, (st RoleKey.VICE).monthsServed, true⟩
    else st
  else st

/-- The per-role capped-flag update (App.tsx lines 100-102): a role whose
score has reached `caps - 1e-6` has its capped flag set. -/
def roleCapFlag (st : States) (r : RoleKey) : States :=
  if qle (qsub (ROLE_INFO r).caps (mkRat 1 1000000)) (st r).score then
    setState st r ⟨(st r).score, (st r).monthsServed, true⟩
  else st

/-- One iteration of the weight loop (App.tsx lines 78-104): raw gain =
baseline × weight, the combined-cap clamp, the per-role cap clamp,
crediting the allowable gain, the combined capped-flag update, the
per-role capped-flag update, and the logged allocation whose gain is the
allowable gain rounded to 4 decimals. -/
def allocStep (st : States) (c : Candidate) (weight : ℚ) : States × MonthAllocation :=
  let gain := comboClamp st c.role (qmul c.baselinePerMonth weight)
  let allowable := capClamp c.role (st c.role).score gain
  let st1 := creditGain st c.role allowable
  (roleCapFlag (comboCapFlag st1 c.role) c.role, ⟨c.role, weight, round4 allowable⟩)

/-- The weight loop `for (w = 0; w < WEIGHTS.length && w < candidates.length; w++)`
(App.tsx line 77) is a left fold over the candidates paired positionally
with the weights (`zip` truncates to the shorter list). -/
def allocLoop (st : States) : List (Candidate × ℚ) → States × List MonthAllocation
  | [] => (st, [])
  | (c, w) :: rest =>
    let s1 := allocStep st c w
    let s2 := allocLoop s1.1 rest
    (s2.1, s1.2 :: s2.2)

/-- One iteration of the month loop (App.tsx lines 59-106): if no role is
active the month is skipped entirely, otherwise months-served counters
are bumped, candidates are built, sorted and allocated, and a month log
is emitted. -/
def monthStep (entries : List RoleEntry) (st : States) (ymIdx : Int) : States × Option MonthDetail :=
  let act := activeRoles entries st ymIdx
  if act.isEmpty then (st, none)
  else
    let st1 := bumpServed st act
    let cands := sortCands (act.map (mkCandidate st1))
    let s2 := allocLoop st1 (cands.zip WEIGHTS)
    (s2.1, some ⟨indexToYM ymIdx, s2.2⟩)

/-- The processed month range `[minYM, maxYM]` (App.tsx lines 52-54).
With zero records `Math.min()`/`Math.max()` give `Infinity`/`-Infinity`,
`monthsTotal` is `-Infinity` and the loop body never runs; this is
modelled as the empty month list. -/
def monthsList (entries : List RoleEntry) : List Int :=
  match (entries.map (fun e => ymToIndex e.start)).min?,
        (entries.map (fun e => ymToIndex e.stop)).max? with
  | some minYM, some maxYM =>
    (List.range (maxYM - minYM + 1).toNat).map (fun i => minYM + (i : Int))
  | _, _ => []

/-- The month loop (App.tsx lines 59-107), returning the final state and
the collected month logs. -/
def walk (entries : List RoleEntry) : States → List Int → States × List MonthDetail
  | st, [] => (st, [])
  | st, m :: ms =>
    let s1 := monthStep entries st m
    let s2 := walk entries s1.1 ms
    match s1.2 with
    | none => (s2.1, s2.2)
    | some d => (s2.1, d :: s2.2)

/-- The running state after the first `k` processed months of the walk. -/
def statesAt (entries : List RoleEntry) (k : Nat) : States :=
  (walk entries initState ((monthsList entries).take k)).1

/-- The state after the whole walk. -/
def finalStateOf (entries : List RoleEntry) : States :=
  (walk entries initState (monthsList entries)).1

/-- The role summaries (App.tsx line 109): one per defined role in table
order, with the running score rounded to 4 decimals. -/
def summariesOf (st : States) : List RoleSummary :=
  ROLES.map (fun r => ⟨r, round4 (st r).score, (ROLE_INFO r).caps, (st r).capped⟩)

/-- The function `calculate` (App.tsx lines 41-112). -/
def calculate (csvText : String) : Except Err CalculationResult :=
  match entriesOf csvText with
  | .error e => .error e
  | .ok entries =>
    let w := walk entries initState (monthsList entries)
    let roleSummary := summariesOf w.1
    let totalScore := round4 ((roleSummary.map (fun s => s.score)).foldl qadd 0)
    .ok ⟨roleSummary, totalScore, w.2⟩

/-- The annual baseline rate the spec predicts for a role from a given
months-served count: tier 1 exactly when the count is at least 72 and the
role defines two tiers, else tier 0.  Used to state claims about tier
selection. -/
def tierBaseline (r : RoleKey) (served : Nat) : ℚ :=
  (ROLE_INFO r).baselines.getD
    (if 72 ≤ served ∧ 1 < (ROLE_INFO r).baselines.length then 1 else 0) 0

/-- Whether a line fully parses: regex match, known role, dates ordered.
Used to state the parse-error claim. -/
def lineOk (cs : List Char) : Bool :=
  match matchLine cs with
  | none => false
  | some (role, s, e) => (roleOfName (String.mk role)).isSome && !lexLt e s

/-- The summary entry of a given role in a calculation result (the
summaries list contains one entry per role). -/
def summaryScoreOf (res : CalculationResult) (r : RoleKey) : ℚ :=
  ((res.roleSummary.find? (fun s => s.role == r)).getD ⟨r, 0, 0, false⟩).score

/-- The rounded gains recorded for a given role across the whole
allocation trace, in order. -/
def traceGainsOf (res : CalculationResult) (r : RoleKey) : List ℚ :=
  (res.monthDetails.flatMap (fun d => d.allocations.filter (fun a => a.role == r))).map
    (fun a => a.gain)

/-- The sort-order key relation of the comparator: `keyGE a b` says `a`'s
(baseline, headroom) key is lexicographically at least `b`'s. -/
def keyGE (a b : Candidate) : Prop :=
  b.baselinePerMonth < a.baselinePerMonth
    ∨ (b.baselinePerMonth = a.baselinePerMonth ∧ b.remainingCap ≤ a.remainingCap)

/-- The cap invariant maintained by the walk: every score lies between 0
and its role's cap, and the scores of the two linked roles sum to at most
the combined cap. -/
def Inv (st : States) : Prop :=
  (∀ r, 0 ≤ (st r).score ∧ (st r).score ≤ (ROLE_INFO r).caps)
    ∧ (st RoleKey.CLASS).score + (st RoleKey.VICE).score ≤ CLASS_VICE_COMBO_CAP

/-- The single-record input of the spec's scenario 1. -/
def scenario1Input : String := "\"班主任\",\"2020-01-01\",\"2020-01-31\""

/-- The tenure record parsed from a `"班主任","2020-01-01","2020-01-31"` line. -/
def janEntry : RoleEntry := ⟨.CLASS, "2020-01-01".data, "2020-01-31".data⟩

/-- A two-month single-role input, used to exhibit the difference between
the rounded trace gains and the rounded final score. -/
def twoMonthInput : String := "\"班主任\",\"2020-01-01\",\"2020-02-28\""

/-- An input with two identical overlapping 班主任 records: both cover
January 2020, so that month's active-role list contains 班主任 twice. -/
def dupInput : String :=
  "\"班主任\",\"2020-01-01\",\"2020-01-31\"\n\"班主任\",\"2020-01-01\",\"2020-01-31\""

/-- An input with 73 identical overlapping 班主任 records: in its single
processed month the months-served counter jumps from 0 to 73, so the
source computes `monthsSrv = 72` and selects baseline tier 1 even though
the role had served zero months before that month. -/
def dup73Input : String :=
  String.intercalate "\n" (List.replicate 73 "\"班主任\",\"2020-01-01\",\"2020-01-31\"")

/-! ## Bridging lemmas: the executable arithmetic equals the standard one -/

theorem qadd_eq (a b : ℚ) : qadd a b = a + b :=
  (Rat.add_def' a b).symm

theorem qsub_eq (a b : ℚ) : qsub a b = a - b :=
  (Rat.sub_def' a b).symm

theorem qmul_eq (a b : ℚ) : qmul a b = a * b := by
  rw [show qmul a b = mkRat (a.num * b.num) (a.den * b.den) from rfl,
    ← Rat.mkRat_mul_mkRat, Rat.mkRat_self, Rat.mkRat_self]

theorem qle_iff (a b : ℚ) : qle a b ↔ a ≤ b := by
  have hA : (0 : ℤ) < (a.den : ℤ) := by exact_mod_cast a.pos
  have hB : (0 : ℤ) < (b.den : ℤ) := by exact_mod_cast b.pos
  have h := @Rat.divInt_le_divInt a.num (a.den : ℤ) b.num (b.den : ℤ) hA hB
  rw [Rat.divInt_self, Rat.divInt_self] at h
  exact h.symm

theorem qlt_iff (a b : ℚ) : qlt a b ↔ a < b := by
  rw [← not_le, ← qle_iff b a]
  simp only [qlt, qle]
  exact Int.not_le.symm

theorem qmin_eq (a b : ℚ) : qmin a b = min a b := by
  simp only [qmin, min_def]
  by_cases h : a ≤ b
  · rw [if_pos ((qle_iff a b).mpr h), if_pos h]
  · rw [if_neg (fun hc => h ((qle_iff a b).mp hc)), if_neg h]

theorem qdiv_eq (a b : ℚ) : qdiv a b = a / b := by
  have hA : (a.den : ℚ) ≠ 0 := Nat.cast_ne_zero.mpr a.den_nz
  have hB : (b.den : ℚ) ≠ 0 := Nat.cast_ne_zero.mpr b.den_nz
  have hA2 : (a.num : ℚ) = a * (a.den : ℚ) := (div_eq_iff hA).mp (Rat.num_div_den a)
  have hB2 : (b.num : ℚ) = b * (b.den : ℚ) := (div_eq_iff hB).mp (Rat.num_div_den b)
  rcases lt_trichotomy b.num 0 with hn | hn | hn
  · have hb0 : b ≠ 0 := by
      intro h
      rw [h] at hn
      exact absurd hn (by decide)
    have habs : (b.num.natAbs : ℚ) = -(b.num : ℚ) := by
      rw [Int.cast_natAbs, abs_of_neg hn]
      push_cast
      ring
    have hbq : (b.num : ℚ) ≠ 0 := Int.cast_ne_zero.mpr (ne_of_lt hn)
    have h1 : qdiv a b = mkRat (a.num * -(b.den : Int)) (a.den * b.num.natAbs) := by
      simp only [qdiv, if_pos hn]
    rw [h1, Rat.mkRat_eq_div]
    push_cast
    rw [habs]
    rw [div_eq_div_iff (mul_ne_zero hA (neg_ne_zero.mpr hbq)) hb0]
    rw [hA2, hB2]
    ring
  · have hb0 : b = 0 := Rat.num_eq_zero.mp hn
    subst hb0
    simp only [qdiv, Rat.num_ofNat, Int.natAbs_zero, Nat.mul_zero, Rat.mkRat_zero, div_zero]
  · have hb0 : b ≠ 0 := by
      intro h
      rw [h] at hn
      exact absurd hn (by decide)
    have habs : (b.num.natAbs : ℚ) = (b.num : ℚ) := by
      rw [Int.cast_natAbs, abs_of_pos hn]
    have hbq : (b.num : ℚ) ≠ 0 := Int.cast_ne_zero.mpr (ne_of_gt hn)
    have h1 : qdiv a b = mkRat (a.num * (b.den : Int)) (a.den * b.num.natAbs) := by
      simp only [qdiv, if_neg (not_lt.mpr (le_of_lt hn))]
    rw [h1, Rat.mkRat_eq_div]
    push_cast
    rw [habs]
    rw [div_eq_div_iff (mul_ne_zero hA hbq) hb0]
    rw [hA2, hB2]
    ring

theorem qhalfUp_eq (y : ℚ) : qhalfUp y = round y := by
  have hy : (y.den : ℚ) ≠ 0 := Nat.cast_ne_zero.mpr y.den_nz
  have hnum : (y.num : ℚ) = y * (y.den : ℚ) := (div_eq_iff hy).mp (Rat.num_div_den y)
  have key : y + 1 / 2 = ((2 * y.num + (y.den : ℤ) : ℤ) : ℚ) / ((2 * y.den : ℕ) : ℚ) := by
    push_cast
    field_simp
    rw [hnum]
    ring
  rw [round_eq, key, Rat.floor_intCast_div_natCast]
  simp only [qhalfUp]
  push_cast
  rfl

theorem round4_eq (x : ℚ) : round4 x = (round (x * 10000) : ℚ) / 10000 := by
  have h4 : (mkRat 10000 1 : ℚ) = 10000 := by
    rw [Rat.mkRat_eq_div]
    norm_num
  rw [show round4 x = mkRat (qhalfUp (qmul x (mkRat 10000 1))) 10000 from rfl,
    Rat.mkRat_eq_div, qhalfUp_eq, qmul_eq, h4]
  norm_num

theorem foldl_qadd (l : List ℚ) (a : ℚ) : l.foldl qadd a = a + l.sum := by
  induction l generalizing a with
  | nil => simp
  | cons x xs ih => simp [qadd_eq, ih, add_assoc]

/-! ## State-update lemmas -/

theorem setState_self (st : States) (r : RoleKey) (v : RoleState) : setState st r v r = v := by
  simp [setState]

theorem setState_other (st : States) (r x : RoleKey) (v : RoleState) (h : x ≠ r) :
    setState st r v x = st x := by
  simp [setState, h]

theorem bumpServed_nil (st : States) : bumpServed st [] = st := rfl

theorem bumpServed_cons (st : States) (x : RoleKey) (xs : List RoleKey) :
    bumpServed st (x :: xs)
      = bumpServed (setState st x ⟨(st x).score, (st x).monthsServed + 1, (st x).capped⟩) xs := rfl

theorem bumpServed_score : ∀ (l : List RoleKey) (st : States) (r : RoleKey),
    (bumpServed st l r).score = (st r).score
  | [], _, _ => rfl
  | x :: xs, st, r => by
    rw [bumpServed_cons, bumpServed_score xs]
    by_cases h : r = x
    · subst h
      rw [setState_self]
    · rw [setState_other _ _ _ _ h]

theorem bumpServed_capped : ∀ (l : List RoleKey) (st : States) (r : RoleKey),
    (bumpServed st l r).capped = (st r).capped
  | [], _, _ => rfl
  | x :: xs, st, r => by
    rw [bumpServed_cons, bumpServed_capped xs]
    by_cases h : r = x
    · subst h
      rw [setState_self]
    · rw [setState_other _ _ _ _ h]

theorem bumpServed_served : ∀ (l : List RoleKey) (st : States) (r : RoleKey),
    (bumpServed st l r).monthsServed = (st r).monthsServed + l.count r
  | [], st, r => by simp [bumpServed_nil]
  | x :: xs, st, r => by
    rw [bumpServed_cons, bumpServed_served xs]
    by_cases h : r = x
    · subst h
      rw [setState_self]
      simp [List.count_cons]
      omega
    · rw [setState_other _ _ _ _ h]
      have : (x :: xs).count r = xs.count r := by
        simp [List.count_cons]
        intro hc
        exact absurd hc.symm h
      omega

theorem creditGain_score_self (st : States) (r : RoleKey) (a : ℚ) :
    ((creditGain st r a) r).score = qadd (st r).score a := by
  rw [creditGain, setState_self]

theorem creditGain_score_other (st : States) (r : RoleKey) (a : ℚ) (x : RoleKey) (h : x ≠ r) :
    ((creditGain st r a) x).score = (st x).score := by
  rw [creditGain, setState_other _ _ _ _ h]

theorem creditGain_served (st : States) (r : RoleKey) (a : ℚ) (x : RoleKey) :
    ((creditGain st r a) x).monthsServed = (st x).monthsServed := by
  rw [creditGain]
  by_cases h : x = r
  · subst h
    rw [setState_self]
  · rw [setState_other _ _ _ _ h]

theorem comboCapFlag_score (st : States) (r x : RoleKey) :
    ((comboCapFlag st r) x).score = (st x).score := by
  rw [comboCapFlag]
  split_ifs
  · by_cases hV : x = RoleKey.VICE
    · subst hV
      rw [setState_self]
    · rw [setState_other _ _ _ _ hV]
      by_cases hC : x = RoleKey.CLASS
      · subst hC
        rw [setState_self]
      · rw [setState_other _ _ _ _ hC]
  · rfl
  · rfl

theorem comboCapFlag_served (st : States) (r x : RoleKey) :
    ((comboCapFlag st r) x).monthsServed = (st x).monthsServed := by
  rw [comboCapFlag]
  split_ifs
  · by_cases hV : x = RoleKey.VICE
    · subst hV
      rw [setState_self]
    · rw [setState_other _ _ _ _ hV]
      by_cases hC : x = RoleKey.CLASS
      · subst hC
        rw [setState_self]
      · rw [setState_other _ _ _ _ hC]
  · rfl
  · rfl

theorem roleCapFlag_score (st : States) (r x : RoleKey) :
    ((roleCapFlag st r) x).score = (st x).score := by
  rw [roleCapFlag]
  split_ifs
  · by_cases h : x = r
    · subst h
      rw [setState_self]
    · rw [setState_other _ _ _ _ h]
  · rfl

theorem roleCapFlag_served (st : States) (r x : RoleKey) :
    ((roleCapFlag st r) x).monthsServed = (st x).monthsServed := by
  rw [roleCapFlag]
  split_ifs
  · by_cases h : x = r
    · subst h
      rw [setState_self]
    · rw [setState_other _ _ _ _ h]
  · rfl

/-- The committed delta of one allocation iteration: the raw gain after
the combined-cap clamp and then the per-role cap clamp. -/
theorem allocStep_alloc (st : States) (c : Candidate) (w : ℚ) :
    (allocStep st c w).2
      = ⟨c.role, w, round4 (capClamp c.role (st c.role).score
          (comboClamp st c.role (qmul c.baselinePerMonth w)))⟩ := rfl

theorem allocStep_state (st : States) (c : Candidate) (w : ℚ) :
    (allocStep st c w).1
      = roleCapFlag (comboCapFlag (creditGain st c.role
          (capClamp c.role (st c.role).score
            (comboClamp st c.role (qmul c.baselinePerMonth w)))) c.role) c.role := rfl

theorem allocStep_served (st : States) (c : Candidate) (w : ℚ) (r : RoleKey) :
    ((allocStep st c w).1 r).monthsServed = (st r).monthsServed := by
  rw [allocStep_state, roleCapFlag_served, comboCapFlag_served, creditGain_served]

theorem allocStep_score_self (st : States) (c : Candidate) (w : ℚ) :
    ((allocStep st c w).1 c.role).score
      = qadd (st c.role).score
          (capClamp c.role (st c.role).score (comboClamp st c.role (qmul c.baselinePerMonth w))) := by
  rw [allocStep_state, roleCapFlag_score, comboCapFlag_score, creditGain_score_self]

theorem allocStep_score_other (st : States) (c : Candidate) (w : ℚ) (r : RoleKey)
    (h : r ≠ c.role) :
    ((allocStep st c w).1 r).score = (st r).score := by
  rw [allocStep_state, roleCapFlag_score, comboCapFlag_score, creditGain_score_other _ _ _ _ h]

/-! ## Clamp bounds and the cap invariant -/

theorem capClamp_le_self (r : RoleKey) (s g : ℚ) : capClamp r s g ≤ g := by
  rw [capClamp, qmin_eq, qsub_eq]
  exact min_le_left _ _

theorem capClamp_le_headroom (r : RoleKey) (s g : ℚ) :
    capClamp r s g ≤ (ROLE_INFO r).caps - s := by
  rw [capClamp, qmin_eq, qsub_eq]
  exact min_le_right _ _

theorem capClamp_nonneg (r : RoleKey) (s g : ℚ) (hg : 0 ≤ g)
    (hs : s ≤ (ROLE_INFO r).caps) : 0 ≤ capClamp r s g := by
  rw [capClamp, qmin_eq, qsub_eq]
  exact le_min hg (by linarith)

theorem comboClamp_nonneg (st : States) (r : RoleKey) (g : ℚ) (hg : 0 ≤ g) :
    0 ≤ comboClamp st r g := by
  simp only [comboClamp]
  split_ifs with h1 h2
  · exact le_refl 0
  · rw [qmin_eq]
    refine le_min hg ?_
    rw [qle_iff, qsub_eq, qadd_eq] at h2
    rw [qsub_eq, qadd_eq]
    linarith [not_le.mp h2]
  · exact hg

theorem comboClamp_combo_le (st : States) (r : RoleKey) (g : ℚ)
    (hcombo : (st RoleKey.CLASS).score + (st RoleKey.VICE).score ≤ CLASS_VICE_COMBO_CAP)
    (hr : r = RoleKey.CLASS ∨ r = RoleKey.VICE) :
    (st RoleKey.CLASS).score + (st RoleKey.VICE).score + comboClamp st r g
      ≤ CLASS_VICE_COMBO_CAP := by
  simp only [comboClamp, if_pos hr]
  split_ifs with h1
  · linarith
  · rw [qmin_eq, qsub_eq, qadd_eq]
    have := min_le_right g (CLASS_VICE_COMBO_CAP
      - ((st RoleKey.CLASS).score + (st RoleKey.VICE).score))
    linarith

theorem initState_inv : Inv initState := by
  constructor
  · intro r
    cases r <;> constructor <;> norm_num [initState, ROLE_INFO]
  · norm_num [initState, CLASS_VICE_COMBO_CAP]

theorem inv_of_scores_eq (st st' : States) (h : ∀ r, (st' r).score = (st r).score)
    (hI : Inv st) : Inv st' := by
  obtain ⟨h1, h2⟩ := hI
  exact ⟨fun r => by rw [h]; exact h1 r, by rw [h, h]; exact h2⟩

theorem allocStep_combo_after (st : States) (c : Candidate) (w : ℚ)
    (hCV : c.role = RoleKey.CLASS ∨ c.role = RoleKey.VICE) :
    ((allocStep st c w).1 RoleKey.CLASS).score + ((allocStep st c w).1 RoleKey.VICE).score
      = (st RoleKey.CLASS).score + (st RoleKey.VICE).score
        + capClamp c.role (st c.role).score (comboClamp st c.role (qmul c.baselinePerMonth w)) := by
  rcases hCV with hC | hV
  · have hVne : RoleKey.VICE ≠ c.role := by
      rw [hC]
      decide
    rw [← hC, allocStep_score_self, allocStep_score_other _ _ _ _ hVne, qadd_eq]
    ring
  · have hCne : RoleKey.CLASS ≠ c.role := by
      rw [hV]
      decide
    rw [← hV, allocStep_score_self, allocStep_score_other _ _ _ _ hCne, qadd_eq]
    ring

theorem allocStep_inv (st : States) (c : Candidate) (w : ℚ)
    (hb : 0 ≤ c.baselinePerMonth) (hw : 0 ≤ w) (h : Inv st) :
    Inv (allocStep st c w).1 := by
  obtain ⟨hall, hcombo⟩ := h
  have hg0 : 0 ≤ qmul c.baselinePerMonth w := by
    rw [qmul_eq]
    exact mul_nonneg hb hw
  have hd0 : 0 ≤ capClamp c.role (st c.role).score
      (comboClamp st c.role (qmul c.baselinePerMonth w)) :=
    capClamp_nonneg _ _ _ (comboClamp_nonneg _ _ _ hg0) (hall c.role).2
  have hdh : capClamp c.role (st c.role).score
      (comboClamp st c.role (qmul c.baselinePerMonth w))
      ≤ (ROLE_INFO c.role).caps - (st c.role).score :=
    capClamp_le_headroom _ _ _
  constructor
  · intro r
    by_cases hr : r = c.role
    · subst hr
      rw [allocStep_score_self, qadd_eq]
      exact ⟨by linarith [(hall c.role).1], by linarith⟩
    · rw [allocStep_score_other _ _ _ _ hr]
      exact hall r
  · by_cases hCV : c.role = RoleKey.CLASS ∨ c.role = RoleKey.VICE
    · have hds : capClamp c.role (st c.role).score
          (comboClamp st c.role (qmul c.baselinePerMonth w))
          ≤ comboClamp st c.role (qmul c.baselinePerMonth w) :=
        capClamp_le_self _ _ _
      have hcb := comboClamp_combo_le st c.role (qmul c.baselinePerMonth w) hcombo hCV
      rw [allocStep_combo_after st c w hCV]
      linarith
    · push_neg at hCV
      rw [allocStep_score_other _ _ _ _ (Ne.symm hCV.1),
        allocStep_score_other _ _ _ _ (Ne.symm hCV.2)]
      exact hcombo

/-! ## The weight loop -/

theorem allocLoop_nil (st : States) : allocLoop st [] = (st, []) := rfl

theorem allocLoop_cons (st : States) (c : Candidate) (w : ℚ) (rest : List (Candidate × ℚ)) :
    allocLoop st ((c, w) :: rest)
      = ((allocLoop (allocStep st c w).1 rest).1,
         (allocStep st c w).2 :: (allocLoop (allocStep st c w).1 rest).2) := rfl

theorem allocLoop_length : ∀ (l : List (Candidate × ℚ)) (st : States),
    (allocLoop st l).2.length = l.length
  | [], _ => rfl
  | (c, w) :: rest, st => by
    rw [allocLoop_cons]
    simp [allocLoop_length rest]

theorem allocLoop_weights : ∀ (l : List (Candidate × ℚ)) (st : States),
    (allocLoop st l).2.map (fun a => a.weight) = l.map (fun p => p.2)
  | [], _ => rfl
  | (c, w) :: rest, st => by
    rw [allocLoop_cons]
    simp [allocStep_alloc, allocLoop_weights rest]

theorem allocLoop_roles : ∀ (l : List (Candidate × ℚ)) (st : States),
    (allocLoop st l).2.map (fun a => a.role) = l.map (fun p => p.1.role)
  | [], _ => rfl
  | (c, w) :: rest, st => by
    rw [allocLoop_cons]
    simp [allocStep_alloc, allocLoop_roles rest]

theorem allocLoop_served : ∀ (l : List (Candidate × ℚ)) (st : States) (r : RoleKey),
    ((allocLoop st l).1 r).monthsServed = (st r).monthsServed
  | [], _, _ => rfl
  | (c, w) :: rest, st, r => by
    rw [allocLoop_cons]
    simp only []
    rw [allocLoop_served rest, allocStep_served]

theorem allocLoop_inv : ∀ (l : List (Candidate × ℚ)) (st : States),
    (∀ p ∈ l, 0 ≤ p.1.baselinePerMonth ∧ 0 ≤ p.2) → Inv st → Inv (allocLoop st l).1
  | [], _, _, h => h
  | (c, w) :: rest, st, hmem, h => by
    rw [allocLoop_cons]
    refine allocLoop_inv rest _ (fun p hp => hmem p (List.mem_cons_of_mem _ hp)) ?_
    have hc := hmem (c, w) (List.mem_cons_self _ _)
    exact allocStep_inv st c w hc.1 hc.2 h

/-! ## Zip and take -/

theorem zip_map_snd : ∀ {α β : Type} (l1 : List α) (l2 : List β),
    (l1.zip l2).map Prod.snd = l2.take l1.length
  | _, _, [], l2 => by simp
  | _, _, _ :: _, [] => by simp
  | _, _, x :: xs, y :: ys => by
    simp [zip_map_snd xs ys]

theorem zip_map_fst : ∀ {α β : Type} (l1 : List α) (l2 : List β),
    (l1.zip l2).map Prod.fst = l1.take l2.length
  | _, _, [], l2 => by simp
  | _, _, _ :: _, [] => by simp
  | _, _, x :: xs, y :: ys => by
    simp [zip_map_fst xs ys]

theorem zip_eq_take_zip : ∀ {α β : Type} (l1 : List α) (l2 : List β),
    l1.zip l2 = (l1.take l2.length).zip l2
  | _, _, [], l2 => by simp
  | _, _, _ :: _, [] => by simp
  | _, _, x :: xs, y :: ys => by
    simp [zip_eq_take_zip xs ys]

/-! ## The stable sort -/

theorem insertCand_perm (x : Candidate) : ∀ l : List Candidate,
    (insertCand x l).Perm (x :: l)
  | [] => List.Perm.refl _
  | y :: ys => by
    rw [insertCand]
    split
    · exact List.Perm.refl _
    · exact ((insertCand_perm x ys).cons y).trans (List.Perm.swap x y ys)

theorem sortAux_perm : ∀ (l : List Candidate) (acc : List Candidate),
    (l.foldl (fun acc x => insertCand x acc) acc).Perm (l ++ acc)
  | [], acc => by simp
  | x :: xs, acc => by
    simp only [List.foldl_cons, List.cons_append]
    refine (sortAux_perm xs _).trans ?_
    refine ((insertCand_perm x acc).append_left xs).trans ?_
    exact List.perm_middle

theorem sortCands_perm (l : List Candidate) : (sortCands l).Perm l := by
  have h := sortAux_perm l []
  simpa [sortCands] using h

theorem keyGE_trans {a b c : Candidate} (h1 : keyGE a b) (h2 : keyGE b c) : keyGE a c := by
  rcases h1 with h1 | ⟨h1e, h1r⟩ <;> rcases h2 with h2 | ⟨h2e, h2r⟩
  · exact Or.inl (lt_trans h2 h1)
  · exact Or.inl (h2e.symm ▸ h1)
  · exact Or.inl (h1e ▸ h2)
  · exact Or.inr ⟨h2e.trans h1e, le_trans h2r h1r⟩

theorem keyGE_of_candBefore_true {x y : Candidate} (h : candBefore x y = true) : keyGE x y := by
  rw [candBefore, Bool.or_eq_true, Bool.and_eq_true, decide_eq_true_iff, decide_eq_true_iff,
    decide_eq_true_iff, qlt_iff, qlt_iff] at h
  rcases h with h | ⟨he, hr⟩
  · exact Or.inl h
  · exact Or.inr ⟨he.symm, le_of_lt hr⟩

theorem keyGE_of_candBefore_false {x y : Candidate} (h : candBefore x y = false) : keyGE y x := by
  rw [candBefore, Bool.or_eq_false_iff, Bool.and_eq_false_iff] at h
  obtain ⟨h1, h2⟩ := h
  rw [decide_eq_false_iff_not, qlt_iff, not_lt] at h1
  rcases lt_or_eq_of_le h1 with hlt | heq
  · exact Or.inl hlt
  · refine Or.inr ⟨heq, ?_⟩
    rcases h2 with h2 | h2
    · rw [decide_eq_false_iff_not] at h2
      exact absurd heq h2
    · rw [decide_eq_false_iff_not, qlt_iff, not_lt] at h2
      exact h2

theorem insertCand_pairwise (x : Candidate) : ∀ l : List Candidate,
    l.Pairwise keyGE → (insertCand x l).Pairwise keyGE
  | [], _ => List.pairwise_singleton _ _
  | y :: ys, h => by
    obtain ⟨hy, hys⟩ := List.pairwise_cons.mp h
    rw [insertCand]
    split
    case isTrue hb =>
      refine List.pairwise_cons.mpr ⟨?_, h⟩
      intro z hz
      rcases List.mem_cons.mp hz with rfl | hz
      · exact keyGE_of_candBefore_true hb
      · exact keyGE_trans (keyGE_of_candBefore_true hb) (hy z hz)
    case isFalse hb =>
      refine List.pairwise_cons.mpr ⟨?_, insertCand_pairwise x ys hys⟩
      intro z hz
      rcases List.mem_cons.mp ((insertCand_perm x ys).mem_iff.mp hz) with rfl | hz
      · exact keyGE_of_candBefore_false (Bool.not_eq_true _ ▸ hb)
      · exact hy z hz

theorem sortAux_pairwise : ∀ (l : List Candidate) (acc : List Candidate),
    acc.Pairwise keyGE → (l.foldl (fun acc x => insertCand x acc) acc).Pairwise keyGE
  | [], _, h => h
  | x :: xs, acc, h => by
    simp only [List.foldl_cons]
    exact sortAux_pairwise xs _ (insertCand_pairwise x acc h)

theorem sortCands_pairwise (l : List Candidate) : (sortCands l).Pairwise keyGE :=
  sortAux_pairwise l [] (List.Pairwise.nil)

/-! ## The month step and the walk -/

theorem mkCandidate_role (st : States) (r : RoleKey) : (mkCandidate st r).role = r := rfl

theorem mkCandidate_baseline_nonneg (st : States) (r : RoleKey) :
    0 ≤ (mkCandidate st r).baselinePerMonth := by
  have h12 : (0 : ℚ) ≤ 12⁻¹ := by norm_num
  cases r <;>
    · simp only [mkCandidate, ROLE_INFO, qdiv_eq, div_eq_mul_inv]
      split <;>
        · simp only [List.getD]
          norm_num [Rat.mkRat_eq_div]

theorem weights_nonneg (w : ℚ) (hw : w ∈ WEIGHTS) : 0 ≤ w := by
  rcases hw with _ | ⟨_, _ | ⟨_, _ | ⟨_, _ | ⟨_, _ | ⟨_, h⟩⟩⟩⟩⟩ <;>
    norm_num [Rat.mkRat_eq_div]
  · cases h

theorem monthStep_fst_of_empty (entries : List RoleEntry) (st : States) (m : Int)
    (h : (activeRoles entries st m).isEmpty = true) : (monthStep entries st m).1 = st := by
  rw [monthStep, if_pos h]

theorem monthStep_fst_of_nonempty (entries : List RoleEntry) (st : States) (m : Int)
    (h : ¬(activeRoles entries st m).isEmpty = true) :
    (monthStep entries st m).1
      = (allocLoop (bumpServed st (activeRoles entries st m))
          ((monthCandidates entries st m).zip WEIGHTS)).1 := by
  rw [monthStep, if_neg h]
  rfl

theorem monthStep_inv (entries : List RoleEntry) (st : States) (m : Int) (h : Inv st) :
    Inv (monthStep entries st m).1 := by
  by_cases he : (activeRoles entries st m).isEmpty = true
  · rw [monthStep_fst_of_empty _ _ _ he]
    exact h
  · rw [monthStep_fst_of_nonempty _ _ _ he]
    refine allocLoop_inv _ _ ?_ ?_
    · intro p hp
      obtain ⟨hp1, hp2⟩ := List.of_mem_zip hp
      constructor
      · have := (sortCands_perm _).mem_iff.mp hp1
        obtain ⟨r, _, hr⟩ := List.mem_map.mp this
        rw [← hr]
        exact mkCandidate_baseline_nonneg _ _
      · exact weights_nonneg _ hp2
    · exact inv_of_scores_eq st _ (fun r => bumpServed_score _ _ _) h

theorem walk_nil (entries : List RoleEntry) (st : States) : walk entries st [] = (st, []) := rfl

theorem walk_cons_fst (entries : List RoleEntry) (st : States) (m : Int) (ms : List Int) :
    (walk entries st (m :: ms)).1 = (walk entries (monthStep entries st m).1 ms).1 := by
  rw [walk]
  rcases (monthStep entries st m).2 with _ | d <;> rfl

theorem walk_inv (entries : List RoleEntry) : ∀ (ms : List Int) (st : States),
    Inv st → Inv (walk entries st ms).1
  | [], st, h => h
  | m :: ms, st, h => by
    rw [walk_cons_fst]
    exact walk_inv entries ms _ (monthStep_inv entries st m h)

theorem statesAt_inv (entries : List RoleEntry) (k : Nat) : Inv (statesAt entries k) :=
  walk_inv entries _ initState initState_inv

theorem finalStateOf_inv (entries : List RoleEntry) : Inv (finalStateOf entries) :=
  walk_inv entries _ initState initState_inv

theorem monthStep_served (entries : List RoleEntry) (st : States) (m : Int) (r : RoleKey) :
    ((monthStep entries st m).1 r).monthsServed
      = (st r).monthsServed + (activeRoles entries st m).count r := by
  by_cases he : (activeRoles entries st m).isEmpty = true
  · rw [monthStep_fst_of_empty _ _ _ he]
    have : activeRoles entries st m = [] := List.isEmpty_iff.mp he
    rw [this]
    simp
  · rw [monthStep_fst_of_nonempty _ _ _ he, allocLoop_served, bumpServed_served]

/-! ## Characterisation of parse errors -/

theorem parseLines_cons (k : Nat) (l0 : List Char) (ls : List (List Char)) :
    parseLines k (l0 :: ls)
      = match matchLine l0 with
        | none => .error (.parseError (k + 1) l0)
        | some (role, s, e) =>
          match roleOfName (String.mk role) with
          | none => .error (.unknownRole role)
          | some rk =>
            if lexLt e s then .error (.invalidRange role)
            else
              match parseLines (k + 1) ls with
              | .error er => .error er
              | .ok rest => .ok (⟨rk, s, e⟩ :: rest) := rfl

theorem parseLines_parseError_iff : ∀ (L : List (List Char)) (k n : Nat) (l : List Char),
    parseLines k L = .error (.parseError n l)
    ↔ ∃ i, n = k + i + 1 ∧ L.get? i = some l ∧ matchLine l = none
        ∧ ∀ j, j < i → ∀ cs, L.get? j = some cs → lineOk cs = true := by
  intro L
  induction L with
  | nil =>
    intro k n l
    constructor
    · intro h
      exact absurd h (by simp [parseLines])
    · rintro ⟨i, _, hget, _⟩
      simp at hget
  | cons l0 ls ih =>
    intro k n l
    cases hm : matchLine l0 with
    | none =>
      have hL : parseLines k (l0 :: ls) = .error (.parseError (k + 1) l0) := by
        simp [parseLines_cons, hm]
      rw [hL]
      constructor
      · intro h
        injection h with h'
        injection h' with hn hl
        refine ⟨0, by omega, by simp [hl], by rw [← hl]; exact hm,
          fun j hj => absurd hj (Nat.not_lt_zero j)⟩
      · rintro ⟨i, hn, hget, hml, hok⟩
        cases i with
        | zero =>
          simp only [List.get?_cons_zero, Option.some.injEq] at hget
          subst hget
          rw [hn]
        | succ i' =>
          have h0 := hok 0 (Nat.succ_pos i') l0 (by simp)
          simp [lineOk, hm] at h0
    | some tri =>
      obtain ⟨role, s, e⟩ := tri
      cases hr : roleOfName (String.mk role) with
      | none =>
        have hL : parseLines k (l0 :: ls) = .error (.unknownRole role) := by
          simp [parseLines_cons, hm, hr]
        rw [hL]
        constructor
        · intro h
          injection h with h'
          exact Err.noConfusion h'
        · rintro ⟨i, hn, hget, hml, hok⟩
          cases i with
          | zero =>
            simp only [List.get?_cons_zero, Option.some.injEq] at hget
            rw [← hget, hm] at hml
            cases hml
          | succ i' =>
            have h0 := hok 0 (Nat.succ_pos i') l0 (by simp)
            simp [lineOk, hm, hr] at h0
      | some rk =>
        cases hlex : lexLt e s with
        | true =>
          have hL : parseLines k (l0 :: ls) = .error (.invalidRange role) := by
            simp [parseLines_cons, hm, hr, hlex]
          rw [hL]
          constructor
          · intro h
            injection h with h'
            exact Err.noConfusion h'
          · rintro ⟨i, hn, hget, hml, hok⟩
            cases i with
            | zero =>
              simp only [List.get?_cons_zero, Option.some.injEq] at hget
              rw [← hget, hm] at hml
              cases hml
            | succ i' =>
              have h0 := hok 0 (Nat.succ_pos i') l0 (by simp)
              simp [lineOk, hm, hr, hlex] at h0
        | false =>
          have hok0 : lineOk l0 = true := by
            simp [lineOk, hm, hr, hlex]
          cases hrec : parseLines (k + 1) ls with
          | error er =>
            have hL : parseLines k (l0 :: ls) = .error er := by
              simp [parseLines_cons, hm, hr, hlex, hrec]
            rw [hL]
            constructor
            · intro h
              injection h with h'
              rw [h'] at hrec
              obtain ⟨i', hn, hget, hml, hok⟩ := (ih (k + 1) n l).mp hrec
              refine ⟨i' + 1, by omega, by simpa using hget, hml, ?_⟩
              intro j hj cs hcs
              cases j with
              | zero =>
                simp only [List.get?_cons_zero, Option.some.injEq] at hcs
                rw [← hcs]
                exact hok0
              | succ j' =>
                exact hok j' (by omega) cs (by simpa using hcs)
            · rintro ⟨i, hn, hget, hml, hok⟩
              cases i with
              | zero =>
                simp only [List.get?_cons_zero, Option.some.injEq] at hget
                rw [← hget, hm] at hml
                cases hml
              | succ i' =>
                have hrec2 : parseLines (k + 1) ls = .error (.parseError n l) := by
                  refine (ih (k + 1) n l).mpr ⟨i', by omega, by simpa using hget, hml, ?_⟩
                  intro j hj cs hcs
                  exact hok (j + 1) (by omega) cs (by simpa using hcs)
                rw [hrec] at hrec2
                injection hrec2 with h'
                rw [h']
          | ok rest =>
            have hL : parseLines k (l0 :: ls) = .ok (⟨rk, s, e⟩ :: rest) := by
              simp [parseLines_cons, hm, hr, hlex, hrec]
            rw [hL]
            constructor
            · intro h
              exact Except.noConfusion h
            · rintro ⟨i, hn, hget, hml, hok⟩
              cases i with
              | zero =>
                simp only [List.get?_cons_zero, Option.some.injEq] at hget
                rw [← hget, hm] at hml
                cases hml
              | succ i' =>
                have hrec2 : parseLines (k + 1) ls = .error (.parseError n l) := by
                  refine (ih (k + 1) n l).mpr ⟨i', by omega, by simpa using hget, hml, ?_⟩
                  intro j hj cs hcs
                  exact hok (j + 1) (by omega) cs (by simpa using hcs)
                rw [hrec] at hrec2
                exact Except.noConfusion hrec2

theorem calculate_error_iff (text : String) (e : Err) :
    calculate text = .error e ↔ entriesOf text = .error e := by
  rw [calculate]
  cases he : entriesOf text with
  | error e2 =>
    simp
  | ok entries =>
    simp

/-! ## Result-shape helpers and rounding bounds -/

theorem calculate_ok (text : String) (entries : List RoleEntry)
    (hp : entriesOf text = Except.ok entries) :
    calculate text = Except.ok
      ⟨summariesOf (finalStateOf entries),
       round4 (((summariesOf (finalStateOf entries)).map (fun s => s.score)).foldl qadd 0),
       (walk entries initState (monthsList entries)).2⟩ := by
  simp only [calculate, hp]
  rfl

theorem summariesOf_map_role (st : States) :
    (summariesOf st).map (fun s => s.role) = ROLES := rfl

theorem round4_mono {x y : ℚ} (h : x ≤ y) : round4 x ≤ round4 y := by
  rw [round4_eq, round4_eq]
  have hr : round (x * 10000) ≤ round (y * 10000) := by
    rw [round_eq, round_eq]
    exact Int.floor_mono (by linarith)
  have h2 : ((round (x * 10000) : ℤ) : ℚ) ≤ ((round (y * 10000) : ℤ) : ℚ) :=
    Int.cast_le.mpr hr
  linarith

theorem round4_caps (r : RoleKey) : round4 (ROLE_INFO r).caps = (ROLE_INFO r).caps := by
  cases r <;> decide

theorem round4_zero : round4 (0 : ℚ) = 0 := by decide

/-- The result of scenario 1, as `calculate` produces it. -/
def scenario1Result : CalculationResult :=
  ⟨[⟨.CLASS, mkRat 833 10000, 15, false⟩, ⟨.VICE, 0, 15, false⟩, ⟨.GRADE, 0, 15, false⟩,
    ⟨.SUBJECT, 0, 15, false⟩, ⟨.PREP, 0, 8, false⟩, ⟨.MID, 0, 20, false⟩,
    ⟨.DEPT, 0, 15, false⟩],
   mkRat 833 10000,
   [⟨"2020-01", [⟨.CLASS, 1, mkRat 833 10000⟩]⟩]⟩

/-! ## The claims -/

/-- C1: for every accepted input, at every point of the month-by-month walk
the combined accumulated score of 班主任 and 副班主任 is at most the combined
cap of 15 (a fortiori at most 15 + 1e-6), and in every allocation iteration
the combined-cap clamp (`comboClamp`, gain forced to 0 on non-positive
combined headroom, else capped at the headroom) is applied before the
per-role cap clamp (`capClamp`): the committed score delta is
`capClamp` applied to the result of `comboClamp`. -/
theorem claim_C1 (text : String) (entries : List RoleEntry)
    (hp : entriesOf text = Except.ok entries) :
    (∃ res, calculate text = Except.ok res)
    ∧ (∀ k, (statesAt entries k RoleKey.CLASS).score + (statesAt entries k RoleKey.VICE).score
        ≤ 15 + 1 / 1000000)
    ∧ (∀ (st : States) (c : Candidate) (w : ℚ),
        c.role = RoleKey.CLASS ∨ c.role = RoleKey.VICE →
        ((allocStep st c w).1 c.role).score
          = (st c.role).score
            + capClamp c.role (st c.role).score
                (comboClamp st c.role (qmul c.baselinePerMonth w))) := by
  refine ⟨⟨_, calculate_ok text entries hp⟩, ?_, ?_⟩
  · intro k
    have h := (statesAt_inv entries k).2
    have h15 : (CLASS_VICE_COMBO_CAP : ℚ) = 15 := rfl
    rw [h15] at h
    linarith
  · intro st c w _
    rw [allocStep_score_self, qadd_eq]

theorem claim_C1_witness :
    (∃ res, calculate scenario1Input = Except.ok res)
    ∧ (statesAt [janEntry] 1 RoleKey.CLASS).score + (statesAt [janEntry] 1 RoleKey.VICE).score
        ≤ 15 + 1 / 1000000 := by
  have h := claim_C1 scenario1Input [janEntry] (by decide)
  exact ⟨h.1, h.2.1 1⟩

/-- C2: for every accepted input, every role summary's final (rounded) score
lies in [0, cap] for that role. -/
theorem claim_C2 (text : String) (res : CalculationResult)
    (hc : calculate text = Except.ok res) :
    ∀ s ∈ res.roleSummary, 0 ≤ s.score ∧ s.score ≤ s.cap := by
  cases hp : entriesOf text with
  | error e =>
    have h := (calculate_error_iff text e).mpr hp
    rw [hc] at h
    exact Except.noConfusion h
  | ok entries =>
    have hcalc := calculate_ok text entries hp
    rw [hc] at hcalc
    injection hcalc with h'
    subst h'
    intro s hs
    rw [summariesOf] at hs
    obtain ⟨r, _, hrs⟩ := List.mem_map.mp hs
    have hinv := (finalStateOf_inv entries).1 r
    rw [← hrs]
    constructor
    · have := round4_mono hinv.1
      rw [round4_zero] at this
      exact this
    · have := round4_mono hinv.2
      rw [round4_caps] at this
      exact this

theorem claim_C2_witness :
    0 ≤ (⟨RoleKey.CLASS, mkRat 833 10000, 15, false⟩ : RoleSummary).score
    ∧ (⟨RoleKey.CLASS, mkRat 833 10000, 15, false⟩ : RoleSummary).score
        ≤ (⟨RoleKey.CLASS, mkRat 833 10000, 15, false⟩ : RoleSummary).cap :=
  claim_C2 scenario1Input scenario1Result (by decide)
    ⟨RoleKey.CLASS, mkRat 833 10000, 15, false⟩ (by decide)

/-- C3 counterexample: on empty input `calculate` does NOT fail; it returns a
well-formed all-zero result with an empty month list (the source has no
`EmptyInputError`: with zero records `monthsTotal` is `-Infinity` and the
month loop body never runs). -/
theorem claim_C3_cex :
    calculate ""
      = Except.ok
          ⟨[⟨RoleKey.CLASS, 0, 15, false⟩, ⟨RoleKey.VICE, 0, 15, false⟩,
            ⟨RoleKey.GRADE, 0, 15, false⟩, ⟨RoleKey.SUBJECT, 0, 15, false⟩,
            ⟨RoleKey.PREP, 0, 8, false⟩, ⟨RoleKey.MID, 0, 20, false⟩,
            ⟨RoleKey.DEPT, 0, 15, false⟩], 0, []⟩ := by
  decide

/-- C3 amended: on input with zero records (no lines after trimming)
`calculate` succeeds with the degenerate result: every role summary has
score 0 and capped = false, the total is 0 and no month is processed. -/
theorem claim_C3_amended (text : String) (h : linesOf text = []) :
    calculate text
      = Except.ok ⟨ROLES.map (fun r => ⟨r, 0, (ROLE_INFO r).caps, false⟩), 0, []⟩ := by
  have hp : entriesOf text = Except.ok [] := by
    rw [entriesOf, h]
    rfl
  rw [calculate_ok text [] hp]
  decide

theorem claim_C3_amended_witness :
    calculate ""
      = Except.ok ⟨ROLES.map (fun r => ⟨r, 0, (ROLE_INFO r).caps, false⟩), 0, []⟩ :=
  claim_C3_amended "" (by decide)

/-- C4 counterexample: with two identical overlapping 班主任 records the
single processed month's active-role list contains 班主任 twice (it is not a
set of distinct roles), the months-served counter increments by two, and the
month log records two rank slots for the same role (weights 1 and 0.5). -/
theorem claim_C4_cex :
    entriesOf dupInput = Except.ok [janEntry, janEntry]
    ∧ activeRoles [janEntry, janEntry] initState 24240 = [RoleKey.CLASS, RoleKey.CLASS]
    ∧ ¬(activeRoles [janEntry, janEntry] initState 24240).Nodup
    ∧ monthsList [janEntry, janEntry] = [24240]
    ∧ ((monthStep [janEntry, janEntry] initState 24240).1 RoleKey.CLASS).monthsServed = 2
    ∧ (monthStep [janEntry, janEntry] initState 24240).2
        = some ⟨"2020-01",
            [⟨RoleKey.CLASS, 1, mkRat 833 10000⟩,
             ⟨RoleKey.CLASS, mkRat 1 2, mkRat 417 10000⟩]⟩ := by
  refine ⟨by decide, by decide, by decide, by decide, by decide, by decide⟩

/-- C4 amended: in every processed month each role's months-served counter
increments by the number of occurrences of that role in the active-role
list (one per tenure record covering the month, not once per distinct
role), and the role occupies that many candidate rank slots. -/
theorem claim_C4 (entries : List RoleEntry) (st : States) (m : Int) (r : RoleKey) :
    ((monthStep entries st m).1 r).monthsServed
      = (st r).monthsServed + (activeRoles entries st m).count r
    ∧ ((monthCandidates entries st m).map (fun c => c.role)).count r
        = (activeRoles entries st m).count r := by
  refine ⟨monthStep_served entries st m r, ?_⟩
  simp only [monthCandidates]
  have hperm :
      ((sortCands ((activeRoles entries st m).map
          (mkCandidate (bumpServed st (activeRoles entries st m))))).map
        (fun c => c.role)).Perm
        (((activeRoles entries st m).map
            (mkCandidate (bumpServed st (activeRoles entries st m)))).map
          (fun c => c.role)) :=
    (sortCands_perm _).map _
  rw [hperm.count_eq, List.map_map]
  have hid : ((fun c : Candidate => c.role)
      ∘ mkCandidate (bumpServed st (activeRoles entries st m))) = fun x => x := rfl
  rw [hid]
  simp

/-- C5 counterexample: with 73 identical overlapping 班主任 records, in the
single processed month the role had served zero months before (tier 0, annual
rate 1, so the claimed per-month baseline is 1/12), yet every candidate's
baseline is 1.5/12 = 1/8: the counter jumps by 73 and the source's
`monthsServed - 1 = 72` selects tier 1. -/
theorem claim_C5_cex :
    entriesOf dup73Input = Except.ok (List.replicate 73 janEntry)
    ∧ (initState RoleKey.CLASS).monthsServed = 0
    ∧ tierBaseline RoleKey.CLASS 0 = 1
    ∧ (monthCandidates (List.replicate 73 janEntry) initState 24240).map
        (fun c => c.baselinePerMonth) = List.replicate 73 (mkRat 1 8)
    ∧ (mkRat 1 8 : ℚ) ≠ tierBaseline RoleKey.CLASS 0 / 12 := by
  refine ⟨by decide, rfl, by decide, by decide, ?_⟩
  have h1 : tierBaseline RoleKey.CLASS 0 = 1 := by decide
  rw [h1, Rat.mkRat_eq_div]
  norm_num

/-- C5 amended: every candidate's per-month baseline is the tier baseline
selected from the POST-increment months-served value minus one, divided
by 12; this equals the pre-increment value exactly when the role occurs
exactly once in the month's active-role list. -/
theorem claim_C5 (entries : List RoleEntry) (st : States) (m : Int) (c : Candidate)
    (hc : c ∈ monthCandidates entries st m) :
    c.baselinePerMonth
      = tierBaseline c.role
          ((bumpServed st (activeRoles entries st m) c.role).monthsServed - 1) / 12
    ∧ ((activeRoles entries st m).count c.role = 1 →
        c.baselinePerMonth = tierBaseline c.role (st c.role).monthsServed / 12) := by
  simp only [monthCandidates] at hc
  have hc2 := (sortCands_perm _).mem_iff.mp hc
  obtain ⟨r, hr, hcr⟩ := List.mem_map.mp hc2
  subst hcr
  simp only [mkCandidate_role]
  have hbase : (mkCandidate (bumpServed st (activeRoles entries st m)) r).baselinePerMonth
      = tierBaseline r
          ((bumpServed st (activeRoles entries st m) r).monthsServed - 1) / 12 := by
    simp only [mkCandidate, tierBaseline]
    rw [qdiv_eq]
  refine ⟨hbase, ?_⟩
  intro h1
  rw [hbase]
  have hserved : (bumpServed st (activeRoles entries st m) r).monthsServed
      = (st r).monthsServed + 1 := by
    rw [bumpServed_served, h1]
  rw [hserved]
  simp

theorem claim_C5_witness :
    (⟨RoleKey.CLASS, mkRat 1 12, mkRat 15000000001 1000000000⟩ : Candidate)
      ∈ monthCandidates [janEntry] initState 24240
    ∧ (mkRat 1 12 : ℚ)
        = tierBaseline RoleKey.CLASS
            ((bumpServed initState (activeRoles [janEntry] initState 24240)
                RoleKey.CLASS).monthsServed - 1) / 12 := by
  refine ⟨by decide, ?_⟩
  exact (claim_C5 [janEntry] initState 24240
    ⟨RoleKey.CLASS, mkRat 1 12, mkRat 15000000001 1000000000⟩ (by decide)).1

/-- C6: in every processed month the candidate list is the active roles
sorted descending by per-month baseline with ties broken by descending
remaining cap headroom (the `keyGE` order); the weight schedule
`WEIGHTS = [1, 0.5, 0.25, 0.125, 0.0625]` is applied positionally (rank i
gets `WEIGHTS[i]`), only `min(candidates, 5)` allocation events are
recorded, and candidates ranked beyond the schedule get none. -/
theorem claim_C6 (entries : List RoleEntry) (st : States) (m : Int) :
    (monthCandidates entries st m).Perm
        ((activeRoles entries st m).map
          (mkCandidate (bumpServed st (activeRoles entries st m))))
    ∧ (monthCandidates entries st m).Pairwise keyGE
    ∧ (∀ st2 : States,
        (allocLoop st2 ((monthCandidates entries st m).zip WEIGHTS)).2.map
            (fun a => a.weight)
          = WEIGHTS.take (monthCandidates entries st m).length
        ∧ (allocLoop st2 ((monthCandidates entries st m).zip WEIGHTS)).2.map
            (fun a => a.role)
          = ((monthCandidates entries st m).take WEIGHTS.length).map (fun c => c.role)
        ∧ (allocLoop st2 ((monthCandidates entries st m).zip WEIGHTS)).2.length
          = min (monthCandidates entries st m).length WEIGHTS.length)
    ∧ (monthCandidates entries st m).zip WEIGHTS
        = ((monthCandidates entries st m).take WEIGHTS.length).zip WEIGHTS := by
  refine ⟨?_, ?_, ?_, zip_eq_take_zip _ _⟩
  · simp only [monthCandidates]
    exact sortCands_perm _
  · simp only [monthCandidates]
    exact sortCands_pairwise _
  · intro st2
    refine ⟨?_, ?_, ?_⟩
    · rw [allocLoop_weights]
      have := zip_map_snd (monthCandidates entries st m) WEIGHTS
      simpa using this
    · rw [allocLoop_roles]
      have := zip_map_fst (monthCandidates entries st m) WEIGHTS
      rw [show (fun p : Candidate × ℚ => p.1.role)
          = (fun c : Candidate => c.role) ∘ Prod.fst from rfl]
      rw [← List.map_map, this]
    · rw [allocLoop_length, List.length_zip]

/-- C7: for every accepted input the result has one role summary per defined
role in table order (all 7), each score is the 4-decimal rounding of the
role's final running score, and the total is the 4-decimal rounding of the
sum of the already-rounded summary scores. -/
theorem claim_C7 (text : String) (entries : List RoleEntry) (res : CalculationResult)
    (hp : entriesOf text = Except.ok entries) (hc : calculate text = Except.ok res) :
    res.roleSummary.map (fun s => s.role) = ROLES
    ∧ res.roleSummary.length = 7
    ∧ (∀ s ∈ res.roleSummary, s.score = round4 (finalStateOf entries s.role).score)
    ∧ res.totalScore = round4 (res.roleSummary.map (fun s => s.score)).sum := by
  have hcalc := calculate_ok text entries hp
  rw [hc] at hcalc
  injection hcalc with h'
  subst h'
  refine ⟨summariesOf_map_role _, rfl, ?_, ?_⟩
  · intro s hs
    rw [summariesOf] at hs
    obtain ⟨r, _, hrs⟩ := List.mem_map.mp hs
    rw [← hrs]
  · show round4 (((summariesOf (finalStateOf entries)).map (fun s => s.score)).foldl qadd 0)
      = round4 ((summariesOf (finalStateOf entries)).map (fun s => s.score)).sum
    rw [foldl_qadd]
    norm_num

theorem claim_C7_witness :
    scenario1Result.roleSummary.map (fun s => s.role) = ROLES
    ∧ scenario1Result.roleSummary.length = 7 := by
  have h := claim_C7 scenario1Input [janEntry] scenario1Result (by decide) (by decide)
  exact ⟨h.1, h.2.1⟩

/-- C8: `calculate` fails with a parse error carrying 1-based line number `n`
and offending line `l` exactly when `l` is the `n`-th input line, it does not
match the 3-field pattern, and every earlier line parses cleanly; on such
failure no result is produced (the error is the whole output). -/
theorem claim_C8 (text : String) (n : Nat) (l : List Char) :
    calculate text = Except.error (Err.parseError n l)
    ↔ ∃ i, n = i + 1 ∧ (linesOf text).get? i = some l ∧ matchLine l = none
        ∧ ∀ j, j < i → ∀ cs, (linesOf text).get? j = some cs → lineOk cs = true := by
  rw [calculate_error_iff, entriesOf, parseLines_parseError_iff]
  constructor
  · rintro ⟨i, hn, h1, h2, h3⟩
    exact ⟨i, by omega, h1, h2, h3⟩
  · rintro ⟨i, hn, h1, h2, h3⟩
    exact ⟨i, by omega, h1, h2, h3⟩

/-- C9: on the single-record scenario-1 input, exactly one month is
processed, 班主任 gets the rank-0 weight 1 and baseline tier 0 (annual
rate 1, so 1/12 per month), and the result reports 班主任 with score
0.0833 (the 4-decimal rounding of 1/12) and capped = false. -/
theorem claim_C9 :
    calculate scenario1Input = Except.ok scenario1Result
    ∧ round4 (1 / 12) = mkRat 833 10000
    ∧ (mkRat 833 10000 : ℚ) = 833 / 10000
    ∧ tierBaseline RoleKey.CLASS 0 = 1 := by
  refine ⟨by decide, ?_, ?_, by decide⟩
  · rw [show (1 : ℚ) / 12 = mkRat 1 12 by rw [Rat.mkRat_eq_div]; norm_num]
    decide
  · rw [Rat.mkRat_eq_div]
    norm_num

/-- C10: each allocation event's logged gain is the 4-decimal rounding of
the committed (unrounded) score delta of that iteration, while the running
score accumulates the unrounded delta; consequently on the two-month
single-role input the reported summary score (0.1667, rounded from the
unrounded sum 2/12) differs from the sum of the rounded per-month trace
gains (0.0833 + 0.0833 = 0.1666). -/
theorem claim_C10 :
    (∀ (st : States) (c : Candidate) (w : ℚ),
      (allocStep st c w).2.gain
        = round4 (((allocStep st c w).1 c.role).score - (st c.role).score))
    ∧ (calculate twoMonthInput).map
          (fun r => (summaryScoreOf r RoleKey.CLASS, traceGainsOf r RoleKey.CLASS))
        = Except.ok (mkRat 1667 10000, [mkRat 833 10000, mkRat 833 10000])
    ∧ (mkRat 833 10000 : ℚ) + mkRat 833 10000 ≠ mkRat 1667 10000 := by
  refine ⟨?_, by decide, ?_⟩
  · intro st c w
    rw [allocStep_alloc, allocStep_score_self, qadd_eq, add_sub_cancel_left]
  · rw [Rat.mkRat_eq_div, Rat.mkRat_eq_div]
    norm_num

end TS
